import Mathlib

/-!
# Relic Chunky container: verified model

A shallow embedding of the "Chunky" container format and its satellite
structures (`OffsetInfo`, the `.wtp` texture-layer chunks), together with
round-trip and contract theorems.

Byte streams are modelled as `List Nat` with every element below 256; all
multi-byte fields are little-endian, following the source's `struct`
layouts (`"< l l"`, `"< L H"`, `"< f f f f"`).
-/

namespace Relic

/-- A byte list: every element fits in an octet. -/
def byteList (l : List Nat) : Bool :=
  l.all (fun b => b < 256)

/-- Little-endian encoding of an unsigned 32-bit value into four bytes. -/
def encodeU32 (n : Nat) : List Nat :=
  [n % 256, n / 256 % 256, n / 65536 % 256, n / 16777216 % 256]

/-- Little-endian decoding of four bytes into an unsigned 32-bit value. -/
def decodeU32 : List Nat → Nat
  | [b0, b1, b2, b3] => b0 + 256 * b1 + 65536 * b2 + 16777216 * b3
  | _ => 0

/-- Little-endian encoding of an unsigned 16-bit value into two bytes. -/
def encodeU16 (n : Nat) : List Nat :=
  [n % 256, n / 256 % 256]

/-- Little-endian decoding of two bytes into an unsigned 16-bit value. -/
def decodeU16 : List Nat → Nat
  | [b0, b1] => b0 + 256 * b1
  | _ => 0

/-- Little-endian decoding of four bytes as a signed 32-bit value
(`struct` format `"< l"`). -/
def decodeI32 (l : List Nat) : Int :=
  let n := decodeU32 l
  if n < 2147483648 then (n : Int) else (n : Int) - 4294967296

theorem encodeU32_length (n : Nat) : (encodeU32 n).length = 4 := rfl

theorem encodeU16_length (n : Nat) : (encodeU16 n).length = 2 := rfl

theorem decodeU32_encodeU32 {n : Nat} (h : n < 4294967296) :
    decodeU32 (encodeU32 n) = n := by
  simp only [encodeU32, decodeU32]
  omega

theorem decodeU16_encodeU16 {n : Nat} (h : n < 65536) :
    decodeU16 (encodeU16 n) = n := by
  simp only [encodeU16, decodeU16]
  omega

theorem byteList_encodeU32 (n : Nat) : byteList (encodeU32 n) = true := by
  simp only [byteList, encodeU32, List.all_cons, List.all_nil]
  simp only [Bool.and_eq_true, decide_eq_true_eq, and_true]
  omega

theorem encodeU32_decodeU32 {l : List Nat} (hlen : l.length = 4)
    (hb : byteList l = true) : encodeU32 (decodeU32 l) = l := by
  match l, hlen with
  | [b0, b1, b2, b3], _ =>
    simp only [byteList, List.all_cons, List.all_nil, Bool.and_eq_true,
      decide_eq_true_eq] at hb
    simp only [encodeU32, decodeU32]
    simp only [encodeU32, decodeU32, List.cons.injEq, and_true]
    omega

theorem decodeU32_lt {l : List Nat} (hlen : l.length = 4)
    (hb : byteList l = true) : decodeU32 l < 4294967296 := by
  match l, hlen with
  | [b0, b1, b2, b3], _ =>
    simp only [byteList, List.all_cons, List.all_nil, Bool.and_eq_true,
      decide_eq_true_eq] at hb
    simp only [decodeU32]
    omega

theorem byteList_append (a b : List Nat) :
    byteList (a ++ b) = (byteList a && byteList b) := by
  simp [byteList, List.all_append]

theorem byteList_take (n : Nat) {l : List Nat} (h : byteList l = true) :
    byteList (l.take n) = true := by
  simp only [byteList, List.all_eq_true] at h ⊢
  intro b hb
  exact h b (List.mem_of_mem_take hb)

theorem byteList_drop (n : Nat) {l : List Nat} (h : byteList l = true) :
    byteList (l.drop n) = true := by
  simp only [byteList, List.all_eq_true] at h ⊢
  intro b hb
  exact h b (List.mem_of_mem_drop hb)

/-- The error taxonomy of the parsing core (spec §7). -/
inductive ChunkyError where
  | truncatedRead
  | malformedHeader
  | truncatedPayload
  | chunkNotFound
  | unsupportedFormat
  | unsupportedChunkType
  deriving DecidableEq, Repr

/-- Modelled from the spec: the fixed-size chunk header common to every
chunk (kind tag is carried by the `Chunk` constructor; `name_length` and
`data_length` are recomputed on encode). The header model lives in the
chunky core, which is not under `src/`. -/
structure ChunkHeader where
  id : List Nat
  type_id : List Nat
  version : Nat
  name : List Nat
  deriving Repr

/-- Modelled from the spec: the chunk tree — a Data chunk owns an opaque
byte payload, a Folder chunk owns an ordered list of children. -/
inductive Chunk where
  | data : ChunkHeader → List Nat → Chunk
  | folder : ChunkHeader → List Chunk → Chunk

/-- The 4-byte kind-tag sentinel for Data chunks. -/
def DATA_TAG : List Nat := [68, 65, 84, 65]

/-- The 4-byte kind-tag sentinel for Folder chunks. -/
def FOLD_TAG : List Nat := [70, 79, 76, 68]

/-- Read exactly `n` bytes from the stream; `TruncatedReadError` when the
stream ends before a fixed-size field could be read (spec §4.1, §7). -/
def readBytes (n : Nat) (l : List Nat) :
    Except ChunkyError (List Nat × List Nat) :=
  if n ≤ l.length then .ok (l.take n, l.drop n) else .error .truncatedRead

/-- Read exactly `n` payload bytes; `TruncatedPayloadError` when the
declared data length exceeds the available bytes (spec §4.3, §7). -/
def readPayload (n : Nat) (l : List Nat) :
    Except ChunkyError (List Nat × List Nat) :=
  if n ≤ l.length then .ok (l.take n, l.drop n) else .error .truncatedPayload

/-- Read a little-endian unsigned 32-bit field. -/
def readU32 (l : List Nat) : Except ChunkyError (Nat × List Nat) := do
  let (b, r) ← readBytes 4 l
  .ok (decodeU32 b, r)

mutual

/-- Modelled from the spec: `decode_chunk` of the chunky core (not under
`src/`). Reads the header fields in the §4.2 order (kind tag, id, type_id,
version, name length, data length, name bytes), fails with
`MalformedHeaderError` on an unknown kind tag, then reads exactly
`data_length` payload bytes (Data) or recursively decodes children inside
the `data_length`-byte window until it is fully consumed (Folder, §4.3).
`fuel` bounds the recursion depth; callers pass `l.length + 1`, which is
always sufficient since every chunk consumes at least its 24 header
bytes. -/
def decodeChunk : Nat → List Nat → Except ChunkyError (Chunk × List Nat)
  | 0, _ => .error .truncatedRead
  | Nat.succ fuel, l => do
    let (tag, r0) ← readBytes 4 l
    if tag = DATA_TAG ∨ tag = FOLD_TAG then do
      let (idb, r1) ← readBytes 4 r0
      let (tib, r2) ← readBytes 4 r1
      let (ver, r3) ← readU32 r2
      let (nameLen, r4) ← readU32 r3
      let (dataLen, r5) ← readU32 r4
      let (nameb, r6) ← readBytes nameLen r5
      if tag = DATA_TAG then do
        let (payload, r7) ← readPayload dataLen r6
        .ok (.data ⟨idb, tib, ver, nameb⟩ payload, r7)
      else do
        let (window, r7) ← readPayload dataLen r6
        let children ← decodeChunks fuel window
        .ok (.folder ⟨idb, tib, ver, nameb⟩ children, r7)
    else .error .malformedHeader

/-- Modelled from the spec: decode a sequence of chunks while unconsumed
bytes remain (§4.3's folder-window termination rule; also the top-level
"until end-of-stream" rule of §4.4). -/
def decodeChunks : Nat → List Nat → Except ChunkyError (List Chunk)
  | 0, l => if l.isEmpty then .ok [] else .error .truncatedRead
  | Nat.succ fuel, l =>
    if l.isEmpty then .ok []
    else do
      let (c, rest) ← decodeChunk fuel l
      let cs ← decodeChunks fuel rest
      .ok (c :: cs)

end

mutual

/-- Modelled from the spec: `encode_chunk` (§4.3) — write the header with
recomputed `name_length` and `data_length`, then the payload (Data) or the
recursively encoded children (Folder). -/
def encodeChunk : Chunk → List Nat
  | .data h payload =>
    DATA_TAG ++ h.id ++ h.type_id ++ encodeU32 h.version ++
      encodeU32 h.name.length ++ encodeU32 payload.length ++ h.name ++ payload
  | .folder h children =>
    let body := encodeChunks children
    FOLD_TAG ++ h.id ++ h.type_id ++ encodeU32 h.version ++
      encodeU32 h.name.length ++ encodeU32 body.length ++ h.name ++ body

/-- Encode a sequence of chunks back-to-back. -/
def encodeChunks : List Chunk → List Nat
  | [] => []
  | c :: cs => encodeChunk c ++ encodeChunks cs

end

mutual

/-- Node count of a chunk tree, weighting folders by 2; used as a fuel
bound for `decodeChunk`. -/
def csize : Chunk → Nat
  | .data _ _ => 1
  | .folder _ children => csizeList children + 2

/-- Node count of a chunk list. -/
def csizeList : List Chunk → Nat
  | [] => 0
  | c :: cs => csize c + csizeList cs

end

/-- Validity of a chunk header's fields. -/
def headerValid (h : ChunkHeader) : Bool :=
  decide (h.id.length = 4) && byteList h.id &&
    decide (h.type_id.length = 4) && byteList h.type_id &&
    decide (h.version < 4294967296) &&
    decide (h.name.length < 4294967296) && byteList h.name

mutual

/-- A structurally valid chunk: 4-byte identifiers made of octets, fields
within their unsigned 32-bit widths, payload bytes octets, children
valid. -/
def chunkValid : Chunk → Bool
  | .data h payload =>
    headerValid h && decide (payload.length < 4294967296) && byteList payload
  | .folder h children =>
    headerValid h && chunksValid children &&
      decide ((encodeChunks children).length < 4294967296)

/-- All chunks in the list are valid. -/
def chunksValid : List Chunk → Bool
  | [] => true
  | c :: cs => chunkValid c && chunksValid cs

end

theorem ebind_ok {α β : Type} (a : α) (f : α → Except ChunkyError β) :
    (Except.ok a >>= f) = f a := rfl

theorem ebind_error {α β : Type} (e : ChunkyError)
    (f : α → Except ChunkyError β) :
    ((Except.error e : Except ChunkyError α) >>= f) = .error e := rfl

theorem readBytes_exact {a : List Nat} {n : Nat} (h : a.length = n)
    (r : List Nat) : readBytes n (a ++ r) = .ok (a, r) := by
  subst h
  simp [readBytes]

theorem readPayload_exact {a : List Nat} {n : Nat} (h : a.length = n)
    (r : List Nat) : readPayload n (a ++ r) = .ok (a, r) := by
  subst h
  simp [readPayload]

theorem readU32_encode {n : Nat} (h : n < 4294967296) (r : List Nat) :
    readU32 (encodeU32 n ++ r) = .ok (n, r) := by
  simp [readU32, readBytes_exact (encodeU32_length n), ebind_ok,
    decodeU32_encodeU32 h]

theorem readBytes_data_tag (r : List Nat) :
    readBytes 4 (DATA_TAG ++ r) = .ok (DATA_TAG, r) :=
  readBytes_exact (show DATA_TAG.length = 4 from rfl) r

theorem readBytes_fold_tag (r : List Nat) :
    readBytes 4 (FOLD_TAG ++ r) = .ok (FOLD_TAG, r) :=
  readBytes_exact (show FOLD_TAG.length = 4 from rfl) r

theorem data_tag_ne_fold_tag : (DATA_TAG = FOLD_TAG) = False := by
  simp [DATA_TAG, FOLD_TAG]

theorem fold_tag_ne_data_tag : (FOLD_TAG = DATA_TAG) = False := by
  simp [DATA_TAG, FOLD_TAG]

theorem readBytes_ok {n : Nat} {l a r : List Nat}
    (h : readBytes n l = .ok (a, r)) :
    l = a ++ r ∧ a.length = n ∧ r = l.drop n := by
  unfold readBytes at h
  split at h
  · simp only [Except.ok.injEq, Prod.mk.injEq] at h
    obtain ⟨rfl, rfl⟩ := h
    refine ⟨(List.take_append_drop n l).symm, ?_, rfl⟩
    simp
    omega
  · exact absurd h (by simp)

theorem readPayload_ok {n : Nat} {l a r : List Nat}
    (h : readPayload n l = .ok (a, r)) :
    l = a ++ r ∧ a.length = n ∧ r = l.drop n := by
  unfold readPayload at h
  split at h
  · simp only [Except.ok.injEq, Prod.mk.injEq] at h
    obtain ⟨rfl, rfl⟩ := h
    refine ⟨(List.take_append_drop n l).symm, ?_, rfl⟩
    simp
    omega
  · exact absurd h (by simp)

theorem readU32_ok {l : List Nat} {v : Nat} {r : List Nat}
    (h : readU32 l = .ok (v, r)) :
    ∃ b, l = b ++ r ∧ b.length = 4 ∧ v = decodeU32 b := by
  unfold readU32 at h
  cases h0 : readBytes 4 l with
  | error e => rw [h0] at h; exact absurd h (by simp [ebind_error])
  | ok p =>
    obtain ⟨b, r0⟩ := p
    rw [h0] at h
    simp only [ebind_ok, Except.ok.injEq, Prod.mk.injEq] at h
    obtain ⟨rfl, rfl⟩ := h
    obtain ⟨hsplit, hlen, _⟩ := readBytes_ok h0
    exact ⟨b, hsplit, hlen, rfl⟩

theorem csize_pos (c : Chunk) : 1 ≤ csize c := by
  cases c <;> simp [csize]

mutual

theorem csize_le_encode_length : ∀ c : Chunk, csize c ≤ (encodeChunk c).length
  | .data h p => by
    simp [csize, encodeChunk, DATA_TAG]
  | .folder h children => by
    have hch := csizeList_le_encode_length children
    simp only [csize, encodeChunk, FOLD_TAG, List.length_append]
    simp
    omega

theorem csizeList_le_encode_length :
    ∀ cs : List Chunk, csizeList cs ≤ (encodeChunks cs).length
  | [] => by simp [csizeList, encodeChunks]
  | c :: cs => by
    have h1 := csize_le_encode_length c
    have h2 := csizeList_le_encode_length cs
    simp only [csizeList, encodeChunks, List.length_append]
    omega

end

theorem headerValid_iff (h : ChunkHeader) :
    headerValid h = true ↔
      h.id.length = 4 ∧ byteList h.id = true ∧ h.type_id.length = 4 ∧
        byteList h.type_id = true ∧ h.version < 4294967296 ∧
        h.name.length < 4294967296 ∧ byteList h.name = true := by
  simp [headerValid, Bool.and_eq_true, and_assoc]

theorem chunkValid_data (h : ChunkHeader) (p : List Nat) :
    chunkValid (.data h p) = true ↔
      headerValid h = true ∧ p.length < 4294967296 ∧ byteList p = true := by
  simp [chunkValid, Bool.and_eq_true, and_assoc]

theorem chunkValid_folder (h : ChunkHeader) (children : List Chunk) :
    chunkValid (.folder h children) = true ↔
      headerValid h = true ∧ chunksValid children = true ∧
        (encodeChunks children).length < 4294967296 := by
  simp [chunkValid, Bool.and_eq_true, and_assoc]

theorem chunksValid_cons (c : Chunk) (cs : List Chunk) :
    chunksValid (c :: cs) = true ↔
      chunkValid c = true ∧ chunksValid cs = true := by
  simp [chunksValid]

theorem byteList_append_left {a b : List Nat}
    (h : byteList (a ++ b) = true) : byteList a = true := by
  rw [byteList_append, Bool.and_eq_true] at h
  exact h.1

theorem byteList_append_right {a b : List Nat}
    (h : byteList (a ++ b) = true) : byteList b = true := by
  rw [byteList_append, Bool.and_eq_true] at h
  exact h.2

/-- Decoding inverts encoding, chunk by chunk, given enough fuel. -/
theorem encode_decode_aux : ∀ fuel : Nat,
    (∀ c rest, chunkValid c = true → csize c ≤ fuel →
      decodeChunk fuel (encodeChunk c ++ rest) = .ok (c, rest)) ∧
    (∀ cs, chunksValid cs = true → csizeList cs < fuel →
      decodeChunks fuel (encodeChunks cs) = .ok cs) := by
  intro fuel
  induction fuel with
  | zero =>
    constructor
    · intro c rest _ hsz
      have := csize_pos c
      omega
    · intro cs _ hsz
      exact absurd hsz (by omega)
  | succ fuel ih =>
    obtain ⟨ih1, ih2⟩ := ih
    constructor
    · intro c rest hv hsz
      cases c with
      | data h p =>
        obtain ⟨hh, hp32, _⟩ := (chunkValid_data h p).mp hv
        obtain ⟨hid4, _, htid4, _, hver, hnl32, _⟩ := (headerValid_iff h).mp hh
        simp only [encodeChunk, List.append_assoc]
        simp only [decodeChunk, readBytes_data_tag, readU32_encode hver,
          readU32_encode hnl32, readU32_encode hp32,
          readBytes_exact hid4, readBytes_exact htid4,
          readBytes_exact (rfl : h.name.length = h.name.length),
          readPayload_exact (rfl : p.length = p.length), ebind_ok,
          data_tag_ne_fold_tag, eq_self_iff_true, true_or, if_true,
          or_false, if_false]
      | folder h children =>
        obtain ⟨hh, hch, hb32⟩ := (chunkValid_folder h children).mp hv
        obtain ⟨hid4, _, htid4, _, hver, hnl32, _⟩ := (headerValid_iff h).mp hh
        have hcsz : csizeList children < fuel := by
          simp only [csize] at hsz
          omega
        have hrec := ih2 children hch hcsz
        simp only [encodeChunk, List.append_assoc]
        simp only [decodeChunk, readBytes_fold_tag, readU32_encode hver,
          readU32_encode hnl32, readU32_encode hb32,
          readBytes_exact hid4, readBytes_exact htid4,
          readBytes_exact (rfl : h.name.length = h.name.length),
          readPayload_exact
            (rfl : (encodeChunks children).length = (encodeChunks children).length),
          hrec, ebind_ok, fold_tag_ne_data_tag, eq_self_iff_true, or_true,
          if_true, if_false]
    · intro cs hv hsz
      cases cs with
      | nil => simp [encodeChunks, decodeChunks]
      | cons c cs =>
        obtain ⟨hc, hcs⟩ := (chunksValid_cons c cs).mp hv
        have hsz1 : csize c ≤ fuel := by
          simp only [csizeList] at hsz
          omega
        have hsz2 : csizeList cs < fuel := by
          have := csize_pos c
          simp only [csizeList] at hsz
          omega
        have h1 := ih1 c (encodeChunks cs) hc hsz1
        have h2 := ih2 cs hcs hsz2
        cases he : encodeChunk c with
        | nil =>
          have := csize_pos c
          have := csize_le_encode_length c
          rw [he] at this
          simp at this
          omega
        | cons b bs =>
          rw [he] at h1
          simp only [encodeChunks, he, List.cons_append]
          simp only [decodeChunks, List.isEmpty_cons, Bool.false_eq_true,
            if_false]
          simp only [List.cons_append] at h1
          rw [h1]
          simp only [ebind_ok]
          rw [h2]
          simp [ebind_ok]

/-- Encoding inverts decoding: any successful decode of a byte stream
re-serializes to exactly the input bytes. -/
theorem decode_encode_aux : ∀ fuel : Nat,
    (∀ l c rest, byteList l = true → decodeChunk fuel l = .ok (c, rest) →
      encodeChunk c ++ rest = l) ∧
    (∀ l cs, byteList l = true → decodeChunks fuel l = .ok cs →
      encodeChunks cs = l) := by
  intro fuel
  induction fuel with
  | zero =>
    constructor
    · intro l c rest _ hdec
      exact absurd hdec (by simp [decodeChunk])
    · intro l cs _ hdec
      simp only [decodeChunks] at hdec
      split at hdec
      · next hemp =>
        simp only [Except.ok.injEq] at hdec
        subst hdec
        rw [List.isEmpty_iff] at hemp
        subst hemp
        rfl
      · exact absurd hdec (by simp)
  | succ fuel ih =>
    obtain ⟨ih1, ih2⟩ := ih
    constructor
    · intro l c rest hb hdec
      simp only [decodeChunk] at hdec
      cases h0 : readBytes 4 l with
      | error e => rw [h0] at hdec; exact absurd hdec (by simp [ebind_error])
      | ok p0 =>
        obtain ⟨tag, r0⟩ := p0
        rw [h0] at hdec
        simp only [ebind_ok] at hdec
        split at hdec
        case isFalse => exact absurd hdec (by simp)
        case isTrue htag =>
          cases h1 : readBytes 4 r0 with
          | error e =>
            rw [h1] at hdec; exact absurd hdec (by simp [ebind_error])
          | ok p1 =>
            obtain ⟨idb, r1⟩ := p1
            rw [h1] at hdec
            simp only [ebind_ok] at hdec
            cases h2 : readBytes 4 r1 with
            | error e =>
              rw [h2] at hdec; exact absurd hdec (by simp [ebind_error])
            | ok p2 =>
              obtain ⟨tib, r2⟩ := p2
              rw [h2] at hdec
              simp only [ebind_ok] at hdec
              cases h3 : readU32 r2 with
              | error e =>
                rw [h3] at hdec; exact absurd hdec (by simp [ebind_error])
              | ok p3 =>
                obtain ⟨ver, r3⟩ := p3
                rw [h3] at hdec
                simp only [ebind_ok] at hdec
                cases h4 : readU32 r3 with
                | error e =>
                  rw [h4] at hdec; exact absurd hdec (by simp [ebind_error])
                | ok p4 =>
                  obtain ⟨nameLen, r4⟩ := p4
                  rw [h4] at hdec
                  simp only [ebind_ok] at hdec
                  cases h5 : readU32 r4 with
                  | error e =>
                    rw [h5] at hdec
                    exact absurd hdec (by simp [ebind_error])
                  | ok p5 =>
                    obtain ⟨dataLen, r5⟩ := p5
                    rw [h5] at hdec
                    simp only [ebind_ok] at hdec
                    cases h6 : readBytes nameLen r5 with
                    | error e =>
                      rw [h6] at hdec
                      exact absurd hdec (by simp [ebind_error])
                    | ok p6 =>
                      obtain ⟨nameb, r6⟩ := p6
                      rw [h6] at hdec
                      simp only [ebind_ok] at hdec
                      split at hdec
                      case isTrue hdata =>
                        cases h7 : readPayload dataLen r6 with
                        | error e =>
                          rw [h7] at hdec
                          exact absurd hdec (by simp [ebind_error])
                        | ok p7 =>
                          obtain ⟨payload, r7⟩ := p7
                          rw [h7] at hdec
                          simp only [ebind_ok, Except.ok.injEq,
                            Prod.mk.injEq] at hdec
                          obtain ⟨hc, hrest⟩ := hdec
                          subst hc
                          subst hrest
                          subst hdata
                          obtain ⟨hl, _, _⟩ := readBytes_ok h0
                          obtain ⟨hs1, hidb4, _⟩ := readBytes_ok h1
                          obtain ⟨hs2, htib4, _⟩ := readBytes_ok h2
                          obtain ⟨vb, hs3, hvb4, hverdef⟩ := readU32_ok h3
                          obtain ⟨nlb, hs4, hnlb4, hnldef⟩ := readU32_ok h4
                          obtain ⟨dlb, hs5, hdlb4, hdldef⟩ := readU32_ok h5
                          obtain ⟨hs6, hnblen, _⟩ := readBytes_ok h6
                          obtain ⟨hs7, hplen, _⟩ := readPayload_ok h7
                          subst hl hs1 hs2 hs3 hs4 hs5 hs6 hs7
                          have hbvb : byteList vb = true :=
                            byteList_append_left (byteList_append_right
                              (byteList_append_right
                                (byteList_append_right hb)))
                          have hbnlb : byteList nlb = true :=
                            byteList_append_left (byteList_append_right
                              (byteList_append_right (byteList_append_right
                                (byteList_append_right hb))))
                          have hbdlb : byteList dlb = true :=
                            byteList_append_left (byteList_append_right
                              (byteList_append_right (byteList_append_right
                                (byteList_append_right
                                  (byteList_append_right hb)))))
                          have hvbe : encodeU32 ver = vb := by
                            rw [hverdef]
                            exact encodeU32_decodeU32 hvb4 hbvb
                          have hnle : encodeU32 nameb.length = nlb := by
                            rw [hnblen, hnldef]
                            exact encodeU32_decodeU32 hnlb4 hbnlb
                          have hdle : encodeU32 payload.length = dlb := by
                            rw [hplen, hdldef]
                            exact encodeU32_decodeU32 hdlb4 hbdlb
                          simp [encodeChunk, hvbe, hnle, hdle,
                            List.append_assoc]
                      case isFalse hndata =>
                        have hfold : tag = FOLD_TAG := htag.resolve_left hndata
                        subst hfold
                        cases h7 : readPayload dataLen r6 with
                        | error e =>
                          rw [h7] at hdec
                          exact absurd hdec (by simp [ebind_error])
                        | ok p7 =>
                          obtain ⟨window, r7⟩ := p7
                          rw [h7] at hdec
                          simp only [ebind_ok] at hdec
                          cases h8 : decodeChunks fuel window with
                          | error e =>
                            rw [h8] at hdec
                            exact absurd hdec (by simp [ebind_error])
                          | ok children =>
                            rw [h8] at hdec
                            simp only [ebind_ok, Except.ok.injEq,
                              Prod.mk.injEq] at hdec
                            obtain ⟨hc, hrest⟩ := hdec
                            subst hc
                            subst hrest
                            obtain ⟨hl, _, _⟩ := readBytes_ok h0
                            obtain ⟨hs1, hidb4, _⟩ := readBytes_ok h1
                            obtain ⟨hs2, htib4, _⟩ := readBytes_ok h2
                            obtain ⟨vb, hs3, hvb4, hverdef⟩ := readU32_ok h3
                            obtain ⟨nlb, hs4, hnlb4, hnldef⟩ := readU32_ok h4
                            obtain ⟨dlb, hs5, hdlb4, hdldef⟩ := readU32_ok h5
                            obtain ⟨hs6, hnblen, _⟩ := readBytes_ok h6
                            obtain ⟨hs7, hwlen, _⟩ := readPayload_ok h7
                            subst hl hs1 hs2 hs3 hs4 hs5 hs6 hs7
                            have hbvb : byteList vb = true :=
                              byteList_append_left (byteList_append_right
                                (byteList_append_right
                                  (byteList_append_right hb)))
                            have hbnlb : byteList nlb = true :=
                              byteList_append_left (byteList_append_right
                                (byteList_append_right (byteList_append_right
                                  (byteList_append_right hb))))
                            have hbdlb : byteList dlb = true :=
                              byteList_append_left (byteList_append_right
                                (byteList_append_right (byteList_append_right
                                  (byteList_append_right
                                    (byteList_append_right hb)))))
                            have hbwin : byteList window = true :=
                              byteList_append_left (byteList_append_right
                                (byteList_append_right (byteList_append_right
                                  (byteList_append_right (byteList_append_right
                                    (byteList_append_right hb))))))
                            have hwin : encodeChunks children = window :=
                              ih2 window children hbwin h8
                            have hvbe : encodeU32 ver = vb := by
                              rw [hverdef]
                              exact encodeU32_decodeU32 hvb4 hbvb
                            have hnle : encodeU32 nameb.length = nlb := by
                              rw [hnblen, hnldef]
                              exact encodeU32_decodeU32 hnlb4 hbnlb
                            have hdle : encodeU32 window.length = dlb := by
                              rw [hwlen, hdldef]
                              exact encodeU32_decodeU32 hdlb4 hbdlb
                            simp [encodeChunk, hvbe, hnle, hdle, hwin,
                              List.append_assoc]
    · intro l cs hb hdec
      simp only [decodeChunks] at hdec
      split at hdec
      · next hemp =>
        simp only [Except.ok.injEq] at hdec
        subst hdec
        rw [List.isEmpty_iff] at hemp
        subst hemp
        rfl
      · next hemp =>
        cases hc : decodeChunk fuel l with
        | error e => rw [hc] at hdec; exact absurd hdec (by simp [ebind_error])
        | ok p =>
          obtain ⟨c, rest⟩ := p
          rw [hc] at hdec
          simp only [ebind_ok] at hdec
          cases hcs : decodeChunks fuel rest with
          | error e =>
            rw [hcs] at hdec
            exact absurd hdec (by simp [ebind_error])
          | ok cs0 =>
            rw [hcs] at hdec
            simp only [ebind_ok, Except.ok.injEq] at hdec
            subst hdec
            have h1 : encodeChunk c ++ rest = l := ih1 l c rest hb hc
            have hbrest : byteList rest = true :=
              byteList_append_right (h1 ▸ hb)
            have h2 : encodeChunks cs0 = rest := ih2 rest cs0 hbrest hcs
            calc encodeChunks (c :: cs0)
                = encodeChunk c ++ encodeChunks cs0 := rfl
              _ = encodeChunk c ++ rest := by rw [h2]
              _ = l := h1

/-- Modelled from the spec: the container's fixed magic word; the
concrete value is the one the §8 scenario names ("RSHX"). -/
def MAGIC : List Nat := [82, 83, 72, 88]

/-- Modelled from the spec: the container format version (§8 scenario:
version 1). -/
def CHUNKY_VERSION : Nat := 1

/-- Modelled from the spec: the top-level container — a magic word and
version header followed by the ordered sequence of top-level chunks. -/
structure RelicChunky where
  chunks : List Chunk

/-- Modelled from the spec: `RelicChunky.unpack` (§4.4) — validate the
fixed magic word and format version at the stream start, failing with
`UnsupportedFormatError` on mismatch, then decode top-level chunks until
end-of-stream. -/
def RelicChunky.unpack (l : List Nat) : Except ChunkyError RelicChunky := do
  let (magic, r1) ← readBytes 4 l
  if magic = MAGIC then do
    let (ver, r2) ← readU32 r1
    if ver = CHUNKY_VERSION then do
      let cs ← decodeChunks (r2.length + 1) r2
      .ok ⟨cs⟩
    else .error .unsupportedFormat
  else .error .unsupportedFormat

/-- Modelled from the spec: `RelicChunky.pack` (§4.4) — write the magic
word and version, then each top-level chunk in order. -/
def RelicChunky.pack (c : RelicChunky) : List Nat :=
  MAGIC ++ encodeU32 CHUNKY_VERSION ++ encodeChunks c.chunks

theorem readBytes_magic (r : List Nat) :
    readBytes 4 (MAGIC ++ r) = .ok (MAGIC, r) :=
  readBytes_exact (show MAGIC.length = 4 from rfl) r

/-- C1: for any well-formed input file with no unknown trailing data,
encoding the result of decoding it reproduces the file bit-for-bit; in
particular a successfully decoded Folder chunk — its original header plus
its children re-encoded in original order — byte-reproduces the original
file region it was decoded from. -/
theorem pack_unpack_byte_exact :
    (∀ l chunky, byteList l = true → RelicChunky.unpack l = .ok chunky →
      chunky.pack = l) ∧
    (∀ fuel l h children rest, byteList l = true →
      decodeChunk fuel l = .ok (.folder h children, rest) →
      encodeChunk (.folder h children) ++ rest = l) := by
  constructor
  · intro l chunky hb hdec
    simp only [RelicChunky.unpack] at hdec
    cases h0 : readBytes 4 l with
    | error e => rw [h0] at hdec; exact absurd hdec (by simp [ebind_error])
    | ok p0 =>
      obtain ⟨magic, r1⟩ := p0
      rw [h0] at hdec
      simp only [ebind_ok] at hdec
      split at hdec
      case isFalse => exact absurd hdec (by simp)
      case isTrue hmagic =>
        cases h1 : readU32 r1 with
        | error e => rw [h1] at hdec; exact absurd hdec (by simp [ebind_error])
        | ok p1 =>
          obtain ⟨ver, r2⟩ := p1
          rw [h1] at hdec
          simp only [ebind_ok] at hdec
          split at hdec
          case isFalse => exact absurd hdec (by simp)
          case isTrue hver =>
            cases h2 : decodeChunks (r2.length + 1) r2 with
            | error e =>
              rw [h2] at hdec; exact absurd hdec (by simp [ebind_error])
            | ok cs =>
              rw [h2] at hdec
              simp only [ebind_ok, Except.ok.injEq] at hdec
              subst hdec
              subst hmagic
              obtain ⟨hl, _, _⟩ := readBytes_ok h0
              obtain ⟨vb, hs1, hvb4, hverdef⟩ := readU32_ok h1
              subst hl hs1
              have hbvb : byteList vb = true :=
                byteList_append_left (byteList_append_right hb)
              have hbr2 : byteList r2 = true :=
                byteList_append_right (byteList_append_right hb)
              have hvbe : encodeU32 CHUNKY_VERSION = vb := by
                rw [← hver, hverdef]
                exact encodeU32_decodeU32 hvb4 hbvb
              have hcs : encodeChunks cs = r2 :=
                (decode_encode_aux (r2.length + 1)).2 r2 cs hbr2 h2
              simp [RelicChunky.pack, hvbe, hcs, List.append_assoc]
  · intro fuel l h children rest hb hdec
    exact (decode_encode_aux fuel).1 l (.folder h children) rest hb hdec

/-- C1 witness: a concrete 32-byte file — magic, version 1, one Data
chunk "INFO" with empty name and payload — decodes, and re-encoding the
decoded container reproduces the file. -/
theorem pack_unpack_byte_exact_witness :
    RelicChunky.pack
        ⟨[Chunk.data ⟨[73, 78, 70, 79], [32, 32, 32, 32], 1, []⟩ []]⟩ =
      [82, 83, 72, 88, 1, 0, 0, 0,
        68, 65, 84, 65, 73, 78, 70, 79, 32, 32, 32, 32,
        1, 0, 0, 0, 0, 0, 0, 0, 0, 0, 0, 0] :=
  pack_unpack_byte_exact.1
    [82, 83, 72, 88, 1, 0, 0, 0,
      68, 65, 84, 65, 73, 78, 70, 79, 32, 32, 32, 32,
      1, 0, 0, 0, 0, 0, 0, 0, 0, 0, 0, 0]
    ⟨[Chunk.data ⟨[73, 78, 70, 79], [32, 32, 32, 32], 1, []⟩ []]⟩
    (by decide) (by rfl)

/-- C2: decoding the bytes produced by encoding any valid chunk tree
yields a structurally equal tree — same headers, same payload bytes, same
child order. -/
theorem unpack_pack_roundtrip :
    ∀ chunky : RelicChunky, chunksValid chunky.chunks = true →
      RelicChunky.unpack chunky.pack = .ok chunky := by
  intro chunky hv
  obtain ⟨cs⟩ := chunky
  have hsz : csizeList cs < (encodeChunks cs).length + 1 := by
    have := csizeList_le_encode_length cs
    omega
  have hdec := (encode_decode_aux ((encodeChunks cs).length + 1)).2 cs hv hsz
  simp only [RelicChunky.pack, RelicChunky.unpack, List.append_assoc,
    readBytes_magic, ebind_ok, eq_self_iff_true, if_true,
    readU32_encode (show CHUNKY_VERSION < 4294967296 by decide), hdec]

/-- C2 witness: a concrete valid one-chunk tree survives the
encode-then-decode round trip. -/
theorem unpack_pack_roundtrip_witness :
    RelicChunky.unpack
        (RelicChunky.pack
          ⟨[Chunk.data ⟨[73, 78, 70, 79], [32, 32, 32, 32], 1, []⟩
            [64, 0, 0, 0]]⟩) =
      .ok ⟨[Chunk.data ⟨[73, 78, 70, 79], [32, 32, 32, 32], 1, []⟩
            [64, 0, 0, 0]]⟩ :=
  unpack_pack_roundtrip
    ⟨[Chunk.data ⟨[73, 78, 70, 79], [32, 32, 32, 32], 1, []⟩ [64, 0, 0, 0]]⟩
    (by decide)

/-- C4: `unpack` validates the fixed magic word and format version at the
start of the stream, failing with `UnsupportedFormatError` when either
mismatches; when both match it decodes the top-level chunks until
end-of-stream. -/
theorem unpack_validates_header :
    (∀ magic vb rest, magic.length = 4 → vb.length = 4 →
      (magic ≠ MAGIC ∨ decodeU32 vb ≠ CHUNKY_VERSION) →
      RelicChunky.unpack (magic ++ vb ++ rest) = .error .unsupportedFormat) ∧
    (∀ rest, RelicChunky.unpack (MAGIC ++ encodeU32 CHUNKY_VERSION ++ rest) =
      (decodeChunks (rest.length + 1) rest).map RelicChunky.mk) := by
  constructor
  · intro magic vb rest hm4 hv4 hbad
    simp only [RelicChunky.unpack, List.append_assoc,
      readBytes_exact hm4, ebind_ok]
    rcases hbad with hbad | hbad
    · rw [if_neg hbad]
    · split
      · simp only [readU32, readBytes_exact hv4, ebind_ok]
        rw [if_neg hbad]
      · rfl
  · intro rest
    simp only [RelicChunky.unpack, List.append_assoc, readBytes_magic,
      ebind_ok, eq_self_iff_true, if_true,
      readU32_encode (show CHUNKY_VERSION < 4294967296 by decide)]
    cases hX : decodeChunks (rest.length + 1) rest with
    | error e => rfl
    | ok cs => rfl

/-- C4 witness: a wrong magic word is rejected with
`UnsupportedFormatError`; with the correct header the top-level chunks
are decoded until end-of-stream. -/
theorem unpack_validates_header_witness :
    RelicChunky.unpack ([0, 0, 0, 0] ++ [1, 0, 0, 0] ++ []) =
        .error .unsupportedFormat ∧
      RelicChunky.unpack (MAGIC ++ encodeU32 CHUNKY_VERSION ++ []) =
        (decodeChunks 1 []).map RelicChunky.mk :=
  ⟨unpack_validates_header.1 [0, 0, 0, 0] [1, 0, 0, 0] []
      (by decide) (by decide) (by decide),
    unpack_validates_header.2 []⟩

/-- The header of a chunk, whatever its kind. -/
def Chunk.header : Chunk → ChunkHeader
  | .data h _ => h
  | .folder h _ => h

/-- A chunk's 4-byte identifier. -/
def Chunk.id (c : Chunk) : List Nat :=
  c.header.id

/-- A Folder chunk's ordered children (empty for Data chunks). -/
def Chunk.children : Chunk → List Chunk
  | .data _ _ => []
  | .folder _ cs => cs

/-- A Data chunk's raw payload (empty for Folder chunks). -/
def chunkData : Chunk → List Nat
  | .data _ p => p
  | .folder _ _ => []

/-- Modelled from the spec: `FolderChunk.get_chunk` of the chunky core
(not under `src/`) — return the first child whose id matches, in document
order; when none matches, return the explicit absence value `none` if
`optional`, else fail with `ChunkNotFoundError` (§4.3). -/
def get_chunk (cs : List Chunk) (cid : List Nat) (optional : Bool) :
    Except ChunkyError (Option Chunk) :=
  match cs.find? (fun c => decide (c.id = cid)) with
  | some c => .ok (some c)
  | none => if optional then .ok none else .error .chunkNotFound

/-- Modelled from the spec: `FolderChunk.get_chunk_list` — all matching
children in document order; an empty result is only permitted when
`optional`, else `ChunkNotFoundError` (§4.3). -/
def get_chunk_list (cs : List Chunk) (cid : List Nat) (optional : Bool) :
    Except ChunkyError (List Chunk) :=
  let r := cs.filter (fun c => decide (c.id = cid))
  if r.isEmpty && !optional then .error .chunkNotFound else .ok r

/-- C3: on a folder with no child matching the id, `get_chunk` with
`optional := true` returns the absence marker without raising and with
`optional := false` fails with `ChunkNotFoundError`; when matching
children exist, `get_chunk` returns the first match in document order. -/
theorem get_chunk_contract :
    (∀ cs cid, (∀ c ∈ cs, c.id ≠ cid) →
      get_chunk cs cid true = .ok none ∧
        get_chunk cs cid false = .error .chunkNotFound) ∧
    (∀ (cs : List Chunk) cid pre c post, cs = pre ++ c :: post →
      c.id = cid → (∀ c' ∈ pre, c'.id ≠ cid) →
      ∀ opt, get_chunk cs cid opt = .ok (some c)) := by
  constructor
  · intro cs cid habs
    have hfind : cs.find? (fun c => decide (c.id = cid)) = none := by
      rw [List.find?_eq_none]
      intro c hc
      simpa using habs c hc
    constructor <;> simp [get_chunk, hfind]
  · intro cs cid pre c post hsplit hc hpre opt
    subst hsplit
    have hfpre : pre.find? (fun x => decide (x.id = cid)) = none := by
      rw [List.find?_eq_none]
      intro x hx
      simpa using hpre x hx
    have hfind : (pre ++ c :: post).find? (fun x => decide (x.id = cid)) =
        some c := by
      rw [List.find?_append, hfpre, Option.none_or, List.find?_cons]
      simp [hc]
    simp [get_chunk, hfind]

/-- C3 witness: on a folder containing only an "IMAG" data chunk, looking
up "INFO" optionally yields the absence marker, strictly fails with
`ChunkNotFoundError`; looking up "IMAG" yields that first chunk. -/
theorem get_chunk_contract_witness :
    (get_chunk [Chunk.data ⟨[73, 77, 65, 71], [32, 32, 32, 32], 1, []⟩ []]
        [73, 78, 70, 79] true = .ok none ∧
      get_chunk [Chunk.data ⟨[73, 77, 65, 71], [32, 32, 32, 32], 1, []⟩ []]
        [73, 78, 70, 79] false = .error .chunkNotFound) ∧
    get_chunk [Chunk.data ⟨[73, 77, 65, 71], [32, 32, 32, 32], 1, []⟩ []]
        [73, 77, 65, 71] true =
      .ok (some (Chunk.data ⟨[73, 77, 65, 71], [32, 32, 32, 32], 1, []⟩ [])) :=
  ⟨get_chunk_contract.1
      [Chunk.data ⟨[73, 77, 65, 71], [32, 32, 32, 32], 1, []⟩ []]
      [73, 78, 70, 79] (by decide),
    get_chunk_contract.2
      [Chunk.data ⟨[73, 77, 65, 71], [32, 32, 32, 32], 1, []⟩ []]
      [73, 77, 65, 71] []
      (Chunk.data ⟨[73, 77, 65, 71], [32, 32, 32, 32], 1, []⟩ []) []
      rfl (by decide) (by simp) true⟩

/-- A seekable byte stream: its contents and the current cursor
position. -/
structure StreamState where
  data : List Nat
  pos : Nat

/-- Modelled from the spec: the Stream Region Helper (§4.6) — run the
inner action against a view constrained to `[start, start + len)`; on
release, whether the action succeeded or failed, force the outer stream's
position to `start + len`. -/
def scoped_window (α : Type) (start len : Nat)
    (action : StreamState → Except ChunkyError (α × StreamState))
    (s : StreamState) : Except ChunkyError α × StreamState :=
  match action ⟨s.data.take (start + len), start⟩ with
  | .ok (a, _) => (.ok a, ⟨s.data, start + len⟩)
  | .error e => (.error e, ⟨s.data, start + len⟩)

/-- C5: releasing a scoped window leaves the outer stream's position at
exactly `start + len`, for every inner action — however many bytes it
consumed, and on error paths as well as success paths — and the outer
stream's contents are untouched. -/
theorem scoped_window_repositions (α : Type) (start len : Nat)
    (action : StreamState → Except ChunkyError (α × StreamState))
    (s : StreamState) :
    (scoped_window α start len action s).2.pos = start + len ∧
      (scoped_window α start len action s).2.data = s.data := by
  unfold scoped_window
  cases action ⟨s.data.take (start + len), start⟩ with
  | ok p => obtain ⟨a, s1⟩ := p; exact ⟨rfl, rfl⟩
  | error e => exact ⟨rfl, rfl⟩

/-- Modelled from the spec: the archive-header base-offset constant from
`relic.sga.shared`, which is not under `src/`; the spec fixes only that
it is a constant base, and no theorem below depends on its value. -/
def ARCHIVE_HEADER_OFFSET : Int := 180

/-- `OffsetInfo` (src `relic/sga/offset_info.py`): a 32-bit relative
offset and a 16-bit count, stored as Python integers. -/
structure OffsetInfo where
  offset_relative : Int
  count : Int

/-- The `offset_absolute` property getter (src offset_info.py lines
16-18). -/
def OffsetInfo.offset_absolute (x : OffsetInfo) : Int :=
  ARCHIVE_HEADER_OFFSET + x.offset_relative

/-- The `offset_absolute` property setter (src offset_info.py lines
20-22): stores `abs_offset - ARCHIVE_HEADER_OFFSET` with no range
check. -/
def OffsetInfo.set_offset_absolute (x : OffsetInfo) (abs_offset : Int) :
    OffsetInfo :=
  { x with offset_relative := abs_offset - ARCHIVE_HEADER_OFFSET }

/-- `OffsetInfo.pack` (src offset_info.py): `struct` layout `"< L H"` —
unsigned 32-bit `offset_relative` then unsigned 16-bit `count`, little
endian; Python's `struct.pack` raises when a field is out of range, which
is modelled by `none`. -/
def OffsetInfo.pack (x : OffsetInfo) : Option (List Nat) :=
  if 0 ≤ x.offset_relative ∧ x.offset_relative < 4294967296 ∧
      0 ≤ x.count ∧ x.count < 65536 then
    some (encodeU32 x.offset_relative.toNat ++ encodeU16 x.count.toNat)
  else none

/-- `OffsetInfo.unpack` (src offset_info.py): read the `"< L H"` layout
from the stream; a short stream raises in Python, modelled by `none`. -/
def OffsetInfo.unpack (l : List Nat) : Option OffsetInfo :=
  if 6 ≤ l.length then
    some ⟨(decodeU32 (l.take 4) : Int), (decodeU16 ((l.drop 4).take 2) : Int)⟩
  else none

/-- C6: for every `OffsetInfo` whose `offset_relative` fits the unsigned
32-bit field and whose `count` fits the unsigned 16-bit field, `unpack`
applied to the bytes written by `pack` returns the original value. -/
theorem offsetInfo_unpack_pack (x : OffsetInfo)
    (h1 : 0 ≤ x.offset_relative) (h2 : x.offset_relative < 4294967296)
    (h3 : 0 ≤ x.count) (h4 : x.count < 65536) :
    x.pack.bind OffsetInfo.unpack = some x := by
  obtain ⟨rel, cnt⟩ := x
  simp only [OffsetInfo.pack] at *
  rw [if_pos ⟨h1, h2, h3, h4⟩]
  simp only [Option.bind_some, OffsetInfo.unpack, encodeU32, encodeU16]
  simp only [List.cons_append, List.nil_append]
  norm_num [decodeU32, decodeU16]
  constructor
  · omega
  · omega

/-- C6 witness: a concrete in-bounds `OffsetInfo` round-trips through
`pack` then `unpack`. -/
theorem offsetInfo_unpack_pack_witness :
    (OffsetInfo.mk 5 7).pack.bind OffsetInfo.unpack =
      some (OffsetInfo.mk 5 7) :=
  offsetInfo_unpack_pack (OffsetInfo.mk 5 7)
    (by decide) (by decide) (by decide) (by decide)

/-- C7: reading `offset_absolute` yields the base constant plus
`offset_relative`; after setting `offset_absolute` to any integer,
reading it back yields that integer and `offset_relative` equals it minus
the base constant. -/
theorem offset_absolute_get_set (x : OffsetInfo) (a : Int) :
    x.offset_absolute = ARCHIVE_HEADER_OFFSET + x.offset_relative ∧
      (x.set_offset_absolute a).offset_absolute = a ∧
      (x.set_offset_absolute a).offset_relative =
        a - ARCHIVE_HEADER_OFFSET := by
  refine ⟨rfl, ?_, rfl⟩
  simp only [OffsetInfo.offset_absolute, OffsetInfo.set_offset_absolute]
  ring

/-- C8: the `offset_absolute` setter performs no bounds check — for every
integer, including those making the relative offset negative or too wide
for 32 bits, the setter totally stores `a - ARCHIVE_HEADER_OFFSET`
verbatim; concretely a value one below the base stores `-1` and a value
`2^32` above the base stores `4294967296`, and such a stored value only
fails later, at `pack` time. -/
theorem offset_absolute_setter_unchecked :
    (∀ (x : OffsetInfo) (a : Int),
      (x.set_offset_absolute a).offset_relative =
        a - ARCHIVE_HEADER_OFFSET) ∧
      ((OffsetInfo.mk 0 0).set_offset_absolute
          (ARCHIVE_HEADER_OFFSET - 1)).offset_relative = -1 ∧
      ((OffsetInfo.mk 0 0).set_offset_absolute
          (ARCHIVE_HEADER_OFFSET + 4294967296)).offset_relative =
        4294967296 ∧
      ((OffsetInfo.mk 0 0).set_offset_absolute
          (ARCHIVE_HEADER_OFFSET - 1)).pack = none := by
  refine ⟨fun x a => rfl, by decide, by decide, by decide⟩

/-- The 4-byte ASCII identifier "INFO". -/
def INFO_ID : List Nat := [73, 78, 70, 79]

/-- The 4-byte ASCII identifier "IMAG". -/
def IMAG_ID : List Nat := [73, 77, 65, 71]

/-- The 4-byte ASCII identifier "PTLD". -/
def PTLD_ID : List Nat := [80, 84, 76, 68]

/-- The 4-byte ASCII identifier "PTBD". -/
def PTBD_ID : List Nat := [80, 84, 66, 68]

/-- The 4-byte ASCII identifier "PTBN". -/
def PTBN_ID : List Nat := [80, 84, 66, 78]

/-- `InfoChunk` (src wtp.py): width and height, in that field order. -/
structure InfoChunk where
  width : Int
  height : Int
  deriving DecidableEq, Repr

/-- `InfoChunk.create` (src wtp.py lines 43-48): unpack two little-endian
signed 32-bit integers from the payload as `height, width` — the source
notes "width and height are swapped?" — and build `InfoChunk(width,
height)`; so the first int32 is the height, the second the width.
Python's `struct.unpack` raises on a short buffer, modelled as
`truncatedRead`. -/
def InfoChunk.create (chunk : Chunk) : Except ChunkyError InfoChunk :=
  let s := chunkData chunk
  if 8 ≤ s.length then
    .ok ⟨decodeI32 ((s.drop 4).take 4), decodeI32 (s.take 4)⟩
  else .error .truncatedRead

/-- `PtldChunk` (src wtp.py): a painted-layer index and the raw mask
image bytes. -/
structure PtldChunk where
  layer : Int
  image : List Nat
  deriving DecidableEq, Repr

/-- `PtldChunk.create` (src wtp.py lines 59-65): unpack `unk_a, size` as
two little-endian signed 32-bit integers, then read `size` bytes of
image; `BytesIO.read` of a negative size reads to end-of-stream. -/
def PtldChunk.create (chunk : Chunk) : Except ChunkyError PtldChunk :=
  let s := chunkData chunk
  if 8 ≤ s.length then
    let size := decodeI32 ((s.drop 4).take 4)
    .ok ⟨decodeI32 (s.take 4),
      if size < 0 then s.drop 8 else (s.drop 8).take size.toNat⟩
  else .error .truncatedRead

/-- `PtbdChunk` (src wtp.py): four little-endian float32 fields, modelled
by their 32-bit bit patterns (the code only transports them). -/
structure PtbdChunk where
  unk_a : Nat
  unk_b : Nat
  unk_c : Nat
  unk_d : Nat
  deriving DecidableEq, Repr

/-- `PtbdChunk.create` (src wtp.py lines 79-84): unpack four little-endian
float32 values from the payload. -/
def PtbdChunk.create (chunk : Chunk) : Except ChunkyError PtbdChunk :=
  let s := chunkData chunk
  if 16 ≤ s.length then
    .ok ⟨decodeU32 (s.take 4), decodeU32 ((s.drop 4).take 4),
      decodeU32 ((s.drop 8).take 4), decodeU32 ((s.drop 12).take 4)⟩
  else .error .truncatedRead

/-- `PtbnChunk` (src wtp.py): declared identical in shape to `PtbdChunk`;
its `create` exists in the source but `TpatChunk.create` never calls
it. -/
structure PtbnChunk where
  unk_a : Nat
  unk_b : Nat
  unk_c : Nat
  unk_d : Nat
  deriving DecidableEq, Repr

/-- `PtbnChunk.create` (src wtp.py lines 97-102). -/
def PtbnChunk.create (chunk : Chunk) : Except ChunkyError PtbnChunk :=
  let s := chunkData chunk
  if 16 ≤ s.length then
    .ok ⟨decodeU32 (s.take 4), decodeU32 ((s.drop 4).take 4),
      decodeU32 ((s.drop 8).take 4), decodeU32 ((s.drop 12).take 4)⟩
  else .error .truncatedRead

/-- Modelled from the spec: the rsh `ImagChunk` decoder is imported by
wtp.py but its module is not under `src/`; the spec declares payload
interpretation out of scope (§1), so the model carries the chunk
unchanged. -/
structure ImagChunk where
  chunk : Chunk

/-- Modelled from the spec: see `ImagChunk`. -/
def ImagChunk.create (c : Chunk) : Except ChunkyError ImagChunk :=
  .ok ⟨c⟩

/-- Unwrap a required lookup result; with `optional := false` the `none`
branch is unreachable because `get_chunk` already failed. -/
def expectChunk : Option Chunk → Except ChunkyError Chunk
  | some c => .ok c
  | none => .error .chunkNotFound

/-- Run a chunk decoder on an optional chunk, as the source's
`X.create(c) if c else None`. -/
def createOpt {β : Type} (f : Chunk → Except ChunkyError β) :
    Option Chunk → Except ChunkyError (Option β)
  | some c => do
    let v ← f c
    .ok (some v)
  | none => .ok none

/-- `TpatChunk` (src wtp.py lines 110-117). The source annotates `ptbn`
as `Optional[PtbnChunk]`, but `create` stores the result of
`PtbdChunk.create`; the model uses the runtime type. -/
structure TpatChunk where
  info : InfoChunk
  imag : ImagChunk
  ptld : List PtldChunk
  ptbd : Option PtbdChunk
  ptbn : Option PtbdChunk

/-- `TpatChunk.create` (src wtp.py lines 119-133): look up the required
"INFO" and "IMAG" children, the optional "PTLD" list and optional "PTBD"
and "PTBN" children, then decode each; line 131 feeds the "PTBN" child to
`PtbdChunk.create`. -/
def TpatChunk.create (chunk : Chunk) : Except ChunkyError TpatChunk := do
  let info_chunk ← expectChunk (← get_chunk chunk.children INFO_ID false)
  let imag_chunk ← expectChunk (← get_chunk chunk.children IMAG_ID false)
  let ptld_chunks ← get_chunk_list chunk.children PTLD_ID true
  let ptbd_chunk ← get_chunk chunk.children PTBD_ID true
  let ptbn_chunk ← get_chunk chunk.children PTBN_ID true
  let info ← InfoChunk.create info_chunk
  let imag ← ImagChunk.create imag_chunk
  let ptld ← ptld_chunks.mapM PtldChunk.create
  let ptbd ← createOpt PtbdChunk.create ptbd_chunk
  let ptbn ← createOpt PtbdChunk.create ptbn_chunk
  .ok ⟨info, imag, ptld, ptbd, ptbn⟩

/-- The scenario "INFO" data chunk: 8-byte payload holding height 64 then
width 32, as two little-endian int32 values. -/
def scenarioInfo : Chunk :=
  .data ⟨INFO_ID, [32, 32, 32, 32], 1, []⟩ [64, 0, 0, 0, 32, 0, 0, 0]

/-- The scenario "IMAG" data chunk with arbitrary payload bytes. -/
def scenarioImag : Chunk :=
  .data ⟨IMAG_ID, [32, 32, 32, 32], 1, []⟩ [9, 8, 7, 6]

/-- The scenario top-level "TPAT" folder holding "INFO" then "IMAG". -/
def scenarioTpat : Chunk :=
  .folder ⟨[84, 80, 65, 84], [32, 32, 32, 32], 1, []⟩
    [scenarioInfo, scenarioImag]

/-- The §8 scenario container file: magic "RSHX", version 1, one
top-level Folder "TPAT" containing Data chunks "INFO" (8 bytes:
height 64, width 32 little-endian) and "IMAG". -/
def scenarioFile : List Nat :=
  [82, 83, 72, 88, 1, 0, 0, 0,
    70, 79, 76, 68, 84, 80, 65, 84, 32, 32, 32, 32,
    1, 0, 0, 0, 0, 0, 0, 0, 60, 0, 0, 0,
    68, 65, 84, 65, 73, 78, 70, 79, 32, 32, 32, 32,
    1, 0, 0, 0, 0, 0, 0, 0, 8, 0, 0, 0,
    64, 0, 0, 0, 32, 0, 0, 0,
    68, 65, 84, 65, 73, 77, 65, 71, 32, 32, 32, 32,
    1, 0, 0, 0, 0, 0, 0, 0, 4, 0, 0, 0,
    9, 8, 7, 6]

/-- C9: decoding the scenario container and querying "INFO" yields the
scenario's two integers — `InfoChunk.create` returns height 64 and width
32, the first int32 of the payload being read as the height and the
second as the width; and re-encoding the decoded container byte-matches
the input file. -/
theorem scenario_info_decode :
    RelicChunky.unpack scenarioFile = .ok ⟨[scenarioTpat]⟩ ∧
      get_chunk scenarioTpat.children INFO_ID false =
        .ok (some scenarioInfo) ∧
      InfoChunk.create scenarioInfo =
        .ok { width := 32, height := 64 } ∧
      decodeI32 ((chunkData scenarioInfo).take 4) = 64 ∧
      decodeI32 (((chunkData scenarioInfo).drop 4).take 4) = 32 ∧
      RelicChunky.pack ⟨[scenarioTpat]⟩ = scenarioFile :=
  ⟨rfl, rfl, rfl, rfl, rfl, rfl⟩

theorem get_chunk_optional_eq (cs : List Chunk) (cid : List Nat) :
    get_chunk cs cid true =
      .ok (cs.find? (fun c => decide (c.id = cid))) := by
  unfold get_chunk
  cases cs.find? (fun c => decide (c.id = cid)) <;> simp

/-- C10: whenever `TpatChunk.create` succeeds, the `ptbn` field is the
absence value when no "PTBN" child exists, and otherwise is
`some` of the result of `PtbdChunk.create` — not `PtbnChunk.create` —
applied to the first "PTBN" child, a `PtbdChunk` carrying the child's
four little-endian float32 words. -/
theorem tpat_ptbn_uses_ptbd :
    ∀ (chunk : Chunk) (t : TpatChunk), TpatChunk.create chunk = .ok t →
      (chunk.children.find? (fun c => decide (c.id = PTBN_ID)) = none →
        t.ptbn = none) ∧
      (∀ c,
        chunk.children.find? (fun c => decide (c.id = PTBN_ID)) = some c →
        ∃ v, PtbdChunk.create c = .ok v ∧ t.ptbn = some v ∧
          v = ⟨decodeU32 ((chunkData c).take 4),
            decodeU32 (((chunkData c).drop 4).take 4),
            decodeU32 (((chunkData c).drop 8).take 4),
            decodeU32 (((chunkData c).drop 12).take 4)⟩) := by
  intro chunk t h
  simp only [TpatChunk.create] at h
  cases eg1 : get_chunk chunk.children INFO_ID false with
  | error e => rw [eg1] at h; exact absurd h (by simp [ebind_error])
  | ok o1 =>
    rw [eg1] at h
    simp only [ebind_ok] at h
    cases ee1 : expectChunk o1 with
    | error e => rw [ee1] at h; exact absurd h (by simp [ebind_error])
    | ok info_chunk =>
      rw [ee1] at h
      simp only [ebind_ok] at h
      cases eg2 : get_chunk chunk.children IMAG_ID false with
      | error e => rw [eg2] at h; exact absurd h (by simp [ebind_error])
      | ok o2 =>
        rw [eg2] at h
        simp only [ebind_ok] at h
        cases ee2 : expectChunk o2 with
        | error e => rw [ee2] at h; exact absurd h (by simp [ebind_error])
        | ok imag_chunk =>
          rw [ee2] at h
          simp only [ebind_ok] at h
          cases eg3 : get_chunk_list chunk.children PTLD_ID true with
          | error e => rw [eg3] at h; exact absurd h (by simp [ebind_error])
          | ok ptld_chunks =>
            rw [eg3] at h
            simp only [ebind_ok] at h
            cases eg4 : get_chunk chunk.children PTBD_ID true with
            | error e =>
              rw [eg4] at h; exact absurd h (by simp [ebind_error])
            | ok ptbd_chunk =>
              rw [eg4] at h
              simp only [ebind_ok] at h
              cases eg5 : get_chunk chunk.children PTBN_ID true with
              | error e =>
                rw [eg5] at h; exact absurd h (by simp [ebind_error])
              | ok ptbn_chunk =>
                rw [eg5] at h
                simp only [ebind_ok] at h
                cases ei : InfoChunk.create info_chunk with
                | error e =>
                  rw [ei] at h; exact absurd h (by simp [ebind_error])
                | ok info =>
                  rw [ei] at h
                  simp only [ebind_ok] at h
                  cases em : ImagChunk.create imag_chunk with
                  | error e =>
                    rw [em] at h; exact absurd h (by simp [ebind_error])
                  | ok imag =>
                    rw [em] at h
                    simp only [ebind_ok] at h
                    cases ep : ptld_chunks.mapM PtldChunk.create with
                    | error e =>
                      rw [ep] at h; exact absurd h (by simp [ebind_error])
                    | ok ptld =>
                      rw [ep] at h
                      simp only [ebind_ok] at h
                      cases ed : createOpt PtbdChunk.create ptbd_chunk with
                      | error e =>
                        rw [ed] at h; exact absurd h (by simp [ebind_error])
                      | ok ptbd =>
                        rw [ed] at h
                        simp only [ebind_ok] at h
                        cases en : createOpt PtbdChunk.create ptbn_chunk with
                        | error e =>
                          rw [en] at h
                          exact absurd h (by simp [ebind_error])
                        | ok ptbn =>
                          rw [en] at h
                          simp only [ebind_ok, Except.ok.injEq] at h
                          subst h
                          have hopt : ptbn_chunk =
                              chunk.children.find?
                                (fun c => decide (c.id = PTBN_ID)) := by
                            rw [get_chunk_optional_eq] at eg5
                            simpa using eg5.symm
                          constructor
                          · intro hnone
                            rw [← hopt] at hnone
                            subst hnone
                            simp only [createOpt, Except.ok.injEq] at en
                            simp [← en]
                          · intro c hsome
                            rw [← hopt] at hsome
                            subst hsome
                            simp only [createOpt] at en
                            cases ec : PtbdChunk.create c with
                            | error e =>
                              rw [ec] at en
                              exact absurd en (by simp [ebind_error])
                            | ok v =>
                              rw [ec] at en
                              simp only [ebind_ok, Except.ok.injEq] at en
                              refine ⟨v, ?_, ?_, ?_⟩
                              · rfl
                              · simp [← en]
                              · simp only [PtbdChunk.create] at ec
                                split at ec
                                · simpa using ec.symm
                                · exact absurd ec (by simp)

/-- A demo "PTBN" data chunk whose payload is the four little-endian
float32 values 1.0, 2.0, 3.0, 4.0. -/
def wtpPtbn : Chunk :=
  .data ⟨PTBN_ID, [32, 32, 32, 32], 1, []⟩
    [0, 0, 128, 63, 0, 0, 0, 64, 0, 0, 64, 64, 0, 0, 128, 64]

/-- A demo "TPAT" folder holding "INFO", "IMAG" and "PTBN" children. -/
def wtpFolder : Chunk :=
  .folder ⟨[84, 80, 65, 84], [32, 32, 32, 32], 1, []⟩
    [scenarioInfo, scenarioImag, wtpPtbn]

/-- The `TpatChunk` value produced for `wtpFolder`. -/
def wtpTpat : TpatChunk :=
  ⟨⟨32, 64⟩, ⟨scenarioImag⟩, [], none,
    some ⟨1065353216, 1073741824, 1077936128, 1082130432⟩⟩

/-- C10 witness: on the demo folder, `TpatChunk.create` stores in `ptbn`
exactly `PtbdChunk.create` of the "PTBN" child — the four float32 bit
patterns of 1.0, 2.0, 3.0, 4.0. -/
theorem tpat_ptbn_uses_ptbd_witness :
    PtbdChunk.create wtpPtbn =
        .ok ⟨1065353216, 1073741824, 1077936128, 1082130432⟩ ∧
      wtpTpat.ptbn =
        some ⟨1065353216, 1073741824, 1077936128, 1082130432⟩ := by
  obtain ⟨v, hv, hptbn, hfields⟩ :=
    (tpat_ptbn_uses_ptbd wtpFolder wtpTpat rfl).2 wtpPtbn rfl
  constructor
  · rw [hv, hfields]; rfl
  · rw [hptbn, hfields]; rfl

end Relic
